import Mathlib

/-!
Shallow embedding of the advertising-campaign dashboard (`src/app.py`).

The program is a pandas/streamlit script.  Numeric cells are float64 values
where `NaN` marks a missing value (produced by `pd.to_numeric(errors='coerce')`).
We embed a numeric cell as `Option ℚ` (`none` = NaN produced by parsing) and a
derived float value — which can additionally be an infinity, since pandas
division of a nonzero float by `0.0` yields `±inf` — as `FVal`.

Embedded operations:
  * `psum` / `pmean`: pandas `sum` / `mean` aggregation (skipna semantics,
    empty sum = 0, empty mean = NaN);
  * `aggBase`: `df.groupby(key).agg({'Spend':'sum','RB Conv':'sum',
    'RB CPO':'mean','AOV':'mean','ROAS':'mean'})` (lines 32–38 and 95–101);
  * `withDerived`: `CPA = Spend / RB Conv`, `Revenue = Spend * ROAS`
    (lines 41–42), with IEEE division-by-zero semantics;
  * `idxmax` / `idxmin`: pandas `Series.idxmax()` / `idxmin()` (skipna,
    first occurrence on ties, error when every value is NaN) — lines 144–146,
    171–173, 198–199;
  * `corrMatrix`: `campaign_data[metrics].corr()` (line 75), Pearson with
    pairwise-complete observations;
  * trend labels (lines 200–201, 219) and the module-level pipeline with the
    ARIMA fit call (lines 128–130) abstracted as a fallible function.
-/

namespace FbAdds

/-- Value of a float64 expression: a finite rational, an infinity, or NaN. -/
inductive FVal where
  | nan : FVal
  | inf : FVal
  | neginf : FVal
  | num : ℚ → FVal
deriving DecidableEq

/-- Float division of two finite values (`a / b` on float64, idealised to ℚ
on finite results): division by zero yields `inf`, `-inf` or `nan` according
to the sign of the numerator, exactly as numpy/pandas does; it never raises. -/
def divSF (a b : ℚ) : FVal :=
  if b ≠ 0 then FVal.num (a / b)
  else if a > 0 then FVal.inf
  else if a < 0 then FVal.neginf
  else FVal.nan

/-- Float product of a finite value and a possibly-missing value:
`NaN` propagates, otherwise the finite product. -/
def mulSF (a : ℚ) (b : Option ℚ) : FVal :=
  match b with
  | none => FVal.nan
  | some q => FVal.num (a * q)

/-- One row of `cleaned_data.csv` after `load_data` (line 14–19): the week
start date (embedded as an ordinal), the two tier labels and the five numeric
columns, each `none` when `pd.to_numeric(errors='coerce')` yielded NaN. -/
structure Record where
  week : ℕ
  tier4 : String
  tier5 : String
  spend : Option ℚ
  conv : Option ℚ
  cpo : Option ℚ
  aov : Option ℚ
  roas : Option ℚ
deriving DecidableEq

/-- Pandas `'sum'` aggregation of a float column: NaN values are skipped and
an all-NaN (or empty) column sums to `0`. -/
def psum (xs : List (Option ℚ)) : ℚ :=
  (xs.filterMap id).sum

/-- Pandas `'mean'` aggregation of a float column: NaN values are skipped and
an all-NaN (or empty) column has mean NaN (`none`), never `0`. -/
def pmean (xs : List (Option ℚ)) : Option ℚ :=
  match xs.filterMap id with
  | [] => none
  | v :: vs => some ((v :: vs).sum / (v :: vs).length)

/-- One row of the aggregated frame before the derived columns are added:
the result of `groupby(key).agg({'Spend':'sum','RB Conv':'sum',
'RB CPO':'mean','AOV':'mean','ROAS':'mean'})` for one key value. -/
structure GroupBase (K : Type) where
  key : K
  spend : ℚ
  conv : ℚ
  cpo : Option ℚ
  aov : Option ℚ
  roas : Option ℚ
deriving DecidableEq

/-- One row of `campaign_data` after lines 41–42 added `CPA` and `Revenue`. -/
structure Group (K : Type) where
  key : K
  spend : ℚ
  conv : ℚ
  cpo : Option ℚ
  aov : Option ℚ
  roas : Option ℚ
  cpa : FVal
  revenue : FVal
deriving DecidableEq

/-- Insert a key into an ascending list, keeping it ascending. -/
def insertKey {K : Type} [LinearOrder K] (k : K) : List K → List K
  | [] => [k]
  | x :: xs => if k ≤ x then k :: x :: xs else x :: insertKey k xs

/-- Sort a list of keys ascending (insertion sort; on duplicate-free key
lists this is the unique ascending enumeration, the order in which pandas
`groupby(sort=True)` emits its output rows). -/
def sortKeys {K : Type} [LinearOrder K] : List K → List K
  | [] => []
  | x :: xs => insertKey x (sortKeys xs)

/-- Distinct key values of the grouped column, in ascending order: pandas
`groupby` (with its default `sort=True`) emits one output row per distinct
key, sorted. -/
def keysOf {K : Type} [LinearOrder K] (rows : List Record) (sel : Record → K) : List K :=
  sortKeys ((rows.map sel).dedup)

/-- The rows of one partition: all records whose key equals `k`. -/
def partOf {K : Type} [LinearOrder K] (rows : List Record) (sel : Record → K) (k : K) : List Record :=
  rows.filter (fun r => sel r = k)

/-- Aggregated row for a single key value, per the `agg` dict of lines 32–38
(and identically lines 95–101): sums for `Spend` and `RB Conv`, means for
`RB CPO`, `AOV` and `ROAS`. -/
def aggRow {K : Type} [LinearOrder K] (rows : List Record) (sel : Record → K) (k : K) : GroupBase K :=
  { key := k
    spend := psum ((partOf rows sel k).map Record.spend)
    conv := psum ((partOf rows sel k).map Record.conv)
    cpo := pmean ((partOf rows sel k).map Record.cpo)
    aov := pmean ((partOf rows sel k).map Record.aov)
    roas := pmean ((partOf rows sel k).map Record.roas) }

/-- The grouped-and-aggregated frame (lines 32–38 / 95–101): one `GroupBase`
per distinct key, keys in ascending order. -/
def aggBase {K : Type} [LinearOrder K] (rows : List Record) (sel : Record → K) : List (GroupBase K) :=
  (keysOf rows sel).map (aggRow rows sel)

/-- Lines 41–42: `campaign_data['CPA'] = Spend / RB Conv` and
`campaign_data['Revenue'] = Spend * ROAS`, added to an aggregated row. -/
def withDerived {K : Type} (g : GroupBase K) : Group K :=
  { key := g.key
    spend := g.spend
    conv := g.conv
    cpo := g.cpo
    aov := g.aov
    roas := g.roas
    cpa := divSF g.spend g.conv
    revenue := mulSF g.spend g.roas }

/-- The aggregation-and-derived-metrics part of `campaign_analysis`
(lines 30–42): group by the tier column, aggregate, add `CPA` and `Revenue`. -/
def campaignAnalysis {K : Type} [LinearOrder K] (rows : List Record) (sel : Record → K) : List (Group K) :=
  (aggBase rows sel).map withDerived

/-- Defined entries of a float series together with their positions, starting
at position `n`: the observations pandas `idxmax`/`idxmin` range over
(`skipna=True` drops the NaN entries). -/
def definedPairsFrom : ℕ → List (Option ℚ) → List (ℕ × ℚ)
  | _, [] => []
  | n, none :: rest => definedPairsFrom (n + 1) rest
  | n, some v :: rest => (n, v) :: definedPairsFrom (n + 1) rest

/-- Defined entries of a float series with their positions. -/
def definedPairs (xs : List (Option ℚ)) : List (ℕ × ℚ) :=
  definedPairsFrom 0 xs

/-- Left fold keeping the first pair with maximal value (replacement only on
a strictly larger value, so ties keep the earlier position). -/
def argmaxAcc : (ℕ × ℚ) → List (ℕ × ℚ) → (ℕ × ℚ)
  | best, [] => best
  | best, p :: rest => argmaxAcc (if best.2 < p.2 then p else best) rest

/-- Left fold keeping the first pair with minimal value. -/
def argminAcc : (ℕ × ℚ) → List (ℕ × ℚ) → (ℕ × ℚ)
  | best, [] => best
  | best, p :: rest => argminAcc (if p.2 < best.2 then p else best) rest

/-- Pandas `Series.idxmax()`: position of the first maximal non-NaN entry,
or an error (`none`, a raised `ValueError`) when every entry is NaN. -/
def idxmax (xs : List (Option ℚ)) : Option ℕ :=
  match definedPairs xs with
  | [] => none
  | p :: rest => some (argmaxAcc p rest).1

/-- Pandas `Series.idxmin()`: position of the first minimal non-NaN entry,
or an error (`none`) when every entry is NaN. -/
def idxmin (xs : List (Option ℚ)) : Option ℕ :=
  match definedPairs xs with
  | [] => none
  | p :: rest => some (argminAcc p rest).1

/-- Float `>` comparison where either side may be NaN: any comparison with
NaN is `False`, as on float64. -/
def fgt : Option ℚ → Option ℚ → Bool
  | some a, some b => decide (b < a)
  | _, _ => false

/-- Line 200: `'increasing' if Spend.iloc[-1] > Spend.iloc[0] else
'decreasing'`; `none` models the `IndexError` raised on an empty frame. -/
def spendTrendLabel (spends : List ℚ) : Option String :=
  match spends.head?, spends.getLast? with
  | some first, some last => some (if first < last then "increasing" else "decreasing")
  | _, _ => none

/-- Line 201: `'improving' if ROAS.iloc[-1] > ROAS.iloc[0] else 'declining'`,
on a column whose entries may be NaN. -/
def roasTrendLabel (roas : List (Option ℚ)) : Option String :=
  match roas.head?, roas.getLast? with
  | some first, some last => some (if fgt last first then "improving" else "declining")
  | _, _ => none

/-- Line 219: `'rising' if forecast.values[-1] > roas_series.iloc[-1] else
'falling'`; `none` models the `IndexError` on an empty forecast. -/
def forecastTrendLabel (fc : List ℚ) (histLast : Option ℚ) : Option String :=
  match fc.getLast? with
  | some l => some (if fgt (some l) histLast then "rising" else "falling")
  | none => none

/-- The seven columns of the correlation heatmap (line 75). -/
inductive Metric where
  | spend : Metric
  | conv : Metric
  | cpo : Metric
  | aov : Metric
  | roas : Metric
  | cpa : Metric
  | revenue : Metric
deriving DecidableEq

/-- Read a derived float back as a possibly-missing cell.  Faithful on `nan`
(missing) and `num` (present); the correlation theorems carry a hypothesis
excluding infinite cells, where pandas arithmetic leaves our idealisation. -/
def cellOfFVal : FVal → Option ℚ
  | FVal.num q => some q
  | _ => none

/-- The cell of one aggregated row in one column of the heatmap frame
`campaign_data[['Spend','RB Conv','RB CPO','AOV','ROAS','CPA','Revenue']]`. -/
def metricCol {K : Type} (g : Group K) : Metric → Option ℚ
  | Metric.spend => some g.spend
  | Metric.conv => some g.conv
  | Metric.cpo => g.cpo
  | Metric.aov => g.aov
  | Metric.roas => g.roas
  | Metric.cpa => cellOfFVal g.cpa
  | Metric.revenue => cellOfFVal g.revenue

/-- Keep a pair of cells only when both are defined (pandas `corr` uses
pairwise-complete observations). -/
def pairCell : Option ℚ × Option ℚ → Option (ℚ × ℚ)
  | (some a, some b) => some (a, b)
  | _ => none

/-- The pairwise-complete observations of two columns. -/
def pairedObs (xs ys : List (Option ℚ)) : List (ℚ × ℚ) :=
  (xs.zip ys).filterMap pairCell

/-- Arithmetic mean of a list of rationals (`0` when empty). -/
def qmean (l : List ℚ) : ℚ :=
  l.sum / l.length

/-- Sum of products of deviations from the means (the numerator of the
Pearson coefficient, up to the common `n - 1` factor). -/
def covSum (ps : List (ℚ × ℚ)) : ℚ :=
  (ps.map (fun p => (p.1 - qmean (ps.map Prod.fst)) * (p.2 - qmean (ps.map Prod.snd)))).sum

/-- Sum of squared deviations from the mean (variance numerator). -/
def varSum (l : List ℚ) : ℚ :=
  (l.map (fun x => (x - qmean l) ^ 2)).sum

/-- Pearson correlation of two columns over their pairwise-complete
observations, as `DataFrame.corr` computes it: `NaN` (`none`) when either
column has zero variance on the joint observations. -/
noncomputable def pearson (xs ys : List (Option ℚ)) : Option ℝ :=
  if varSum ((pairedObs xs ys).map Prod.fst) = 0 ∨ varSum ((pairedObs xs ys).map Prod.snd) = 0 then
    none
  else
    some ((covSum (pairedObs xs ys) : ℝ) /
      Real.sqrt ((varSum ((pairedObs xs ys).map Prod.fst) : ℝ) *
        (varSum ((pairedObs xs ys).map Prod.snd) : ℝ)))

/-- Entry of the correlation matrix of line 75 for one pair of metrics. -/
noncomputable def corrMatrix {K : Type} (gs : List (Group K)) (m1 m2 : Metric) : Option ℝ :=
  pearson (gs.map (fun g => metricCol g m1)) (gs.map (fun g => metricCol g m2))

/-- The three selections of one tier's insight block (lines 144–146 for
Tier 4, lines 171–173 for Tier 5). -/
structure TierInsight (K : Type) where
  best : Group K
  worst : Group K
  topSpend : Group K
deriving DecidableEq

/-- Lines 144–146 / 171–173: `df.loc[df['ROAS'].idxmax()]`,
`df.loc[df['ROAS'].idxmin()]`, `df.loc[df['Spend'].idxmax()]`; `none`
models the `ValueError` pandas raises when a ranked column is all NaN. -/
def tierInsights {K : Type} (gs : List (Group K)) : Option (TierInsight K) := do
  let i ← idxmax (gs.map (fun g => g.roas))
  let j ← idxmin (gs.map (fun g => g.roas))
  let k ← idxmax (gs.map (fun g => some g.spend))
  let b ← gs.get? i
  let w ← gs.get? j
  let h ← gs.get? k
  pure ⟨b, w, h⟩

/-- The weekly insight block of lines 198–219. -/
structure WeekInsight where
  bestWeek : GroupBase ℕ
  worstWeek : GroupBase ℕ
  spendLabel : String
  roasLabel : String
  forecastLabel : String
deriving DecidableEq

/-- Lines 198–219: best/worst week by `ROAS` via `idxmax`/`idxmin`, the
first-versus-last trend labels, and the forecast label comparing the last
forecast point to the last historical `ROAS` value. -/
def weekInsights (tw : List (GroupBase ℕ)) (fc : List ℚ) : Option WeekInsight := do
  let i ← idxmax (tw.map (fun g => g.roas))
  let j ← idxmin (tw.map (fun g => g.roas))
  let b ← tw.get? i
  let w ← tw.get? j
  let sl ← spendTrendLabel (tw.map (fun g => g.spend))
  let rl ← roasTrendLabel (tw.map (fun g => g.roas))
  let lastWeek ← tw.getLast?
  let fl ← forecastTrendLabel fc lastWeek.roas
  pure ⟨b, w, sl, rl, fl⟩

/-- Failure of the `ARIMA(...).fit()` / `results.forecast(...)` step
(lines 128–130): the fitting library is outside this repository, so the two
failure modes the spec names are abstracted as this error type. -/
inductive FitError where
  | insufficientData : FitError
  | nonConvergence : FitError
deriving DecidableEq

/-- Abnormal termination of the module-level script: an exception raised by
the forecast fit, or by an insight selection on an all-NaN column.  The
script installs no handler for either, so each aborts the run. -/
inductive RunError where
  | fitFailure : FitError → RunError
  | insightFailure : RunError
deriving DecidableEq

/-- Everything the script computes and renders across its four tabs. -/
structure Dashboard where
  tier4 : List (Group String)
  tier5 : List (Group String)
  weekly : List (GroupBase ℕ)
  forecast : List ℚ
  tier4Insight : TierInsight String
  tier5Insight : TierInsight String
  weekInsight : WeekInsight
deriving DecidableEq

/-- The weekly `ROAS` column, `time_df.set_index('Week')['ROAS']`
(line 125), the series handed to the ARIMA fit. -/
def weeklyRoas (tw : List (GroupBase ℕ)) : List (Option ℚ) :=
  tw.map (fun g => g.roas)

/-- The module-level script (tabs 1–4) as one run: tier aggregations,
weekly aggregation, then `ARIMA(roas_series, order=(1,1,1)).fit()` and
`results.forecast(steps=4)` (lines 128–130), then the insight selections.
`fit` abstracts the out-of-repository statsmodels fit-and-forecast, taking
the series and the number of steps.  The script wraps no step in a handler:
a fit failure or an insight-selection failure aborts the whole run, and no
later section renders. -/
def runDashboard (fit : List (Option ℚ) → ℕ → Except FitError (List ℚ))
    (rows : List Record) : Except RunError Dashboard :=
  let t4 := campaignAnalysis rows (fun r => r.tier4)
  let t5 := campaignAnalysis rows (fun r => r.tier5)
  let tw := aggBase rows (fun r => r.week)
  match fit (weeklyRoas tw) 4 with
  | Except.error e => Except.error (RunError.fitFailure e)
  | Except.ok fc =>
    match tierInsights t4, tierInsights t5, weekInsights tw fc with
    | some i4, some i5, some iw => Except.ok ⟨t4, t5, tw, fc, i4, i5, iw⟩
    | _, _, _ => Except.error RunError.insightFailure

/-- Test that a run produced a rendered dashboard rather than aborting. -/
def rendersAll : Except RunError Dashboard → Bool
  | Except.ok _ => true
  | Except.error _ => false

/-- Aggregated group `A` of the design document's worked example:
spend 100, conversions 10, mean return-on-spend 2.0. -/
def exampleGroupA : GroupBase String :=
  { key := "A", spend := 100, conv := 10, cpo := none, aov := none, roas := some 2 }

/-- Aggregated group `B` of the design document's worked example:
spend 50, conversions 0, mean return-on-spend 1.0. -/
def exampleGroupB : GroupBase String :=
  { key := "B", spend := 50, conv := 0, cpo := none, aov := none, roas := some 1 }

/-- Fit stub that always fails, as the statsmodels fit does on a series that
is too short. -/
def fitInsufficient : List (Option ℚ) → ℕ → Except FitError (List ℚ) :=
  fun _ _ => Except.error FitError.insufficientData

/-- Fit stub that always converges and forecasts the constant value 1 for
the requested number of steps. -/
def fitConstOne : List (Option ℚ) → ℕ → Except FitError (List ℚ) :=
  fun _ n => Except.ok (List.replicate n 1)

/-- A three-week input series (the 3-point series of the spec's example). -/
def rowsThreeWeeks : List Record :=
  [{ week := 0, tier4 := "t", tier5 := "u", spend := some 1, conv := some 1,
     cpo := some 1, aov := some 1, roas := some 1 },
   { week := 1, tier4 := "t", tier5 := "u", spend := some 2, conv := some 1,
     cpo := some 1, aov := some 1, roas := some 2 },
   { week := 2, tier4 := "t", tier5 := "u", spend := some 3, conv := some 1,
     cpo := some 1, aov := some 1, roas := some 3 }]

/-- A one-record input on which every pipeline stage succeeds. -/
def rowsOneConst : List Record :=
  [{ week := 0, tier4 := "t", tier5 := "u", spend := some 1, conv := some 1,
     cpo := some 1, aov := some 1, roas := some 1 }]

/-- The dashboard that `runDashboard fitConstOne rowsOneConst` renders. -/
def dashOne : Dashboard :=
  { tier4 := [{ key := "t", spend := 1, conv := 1, cpo := some 1, aov := some 1,
                roas := some 1, cpa := FVal.num 1, revenue := FVal.num 1 }]
    tier5 := [{ key := "u", spend := 1, conv := 1, cpo := some 1, aov := some 1,
                roas := some 1, cpa := FVal.num 1, revenue := FVal.num 1 }]
    weekly := [{ key := 0, spend := 1, conv := 1, cpo := some 1, aov := some 1, roas := some 1 }]
    forecast := [1, 1, 1, 1]
    tier4Insight :=
      { best := { key := "t", spend := 1, conv := 1, cpo := some 1, aov := some 1,
                  roas := some 1, cpa := FVal.num 1, revenue := FVal.num 1 }
        worst := { key := "t", spend := 1, conv := 1, cpo := some 1, aov := some 1,
                   roas := some 1, cpa := FVal.num 1, revenue := FVal.num 1 }
        topSpend := { key := "t", spend := 1, conv := 1, cpo := some 1, aov := some 1,
                      roas := some 1, cpa := FVal.num 1, revenue := FVal.num 1 } }
    tier5Insight :=
      { best := { key := "u", spend := 1, conv := 1, cpo := some 1, aov := some 1,
                  roas := some 1, cpa := FVal.num 1, revenue := FVal.num 1 }
        worst := { key := "u", spend := 1, conv := 1, cpo := some 1, aov := some 1,
                   roas := some 1, cpa := FVal.num 1, revenue := FVal.num 1 }
        topSpend := { key := "u", spend := 1, conv := 1, cpo := some 1, aov := some 1,
                      roas := some 1, cpa := FVal.num 1, revenue := FVal.num 1 } }
    weekInsight :=
      { bestWeek := { key := 0, spend := 1, conv := 1, cpo := some 1, aov := some 1, roas := some 1 }
        worstWeek := { key := 0, spend := 1, conv := 1, cpo := some 1, aov := some 1, roas := some 1 }
        spendLabel := "decreasing"
        roasLabel := "declining"
        forecastLabel := "falling" } }

/-- A one-record input whose `ROAS` cell failed numeric parsing. -/
def rowsAllNaN : List Record :=
  [{ week := 0, tier4 := "t", tier5 := "u", spend := some 1, conv := some 1,
     cpo := some 1, aov := some 1, roas := none }]

/-- Two records sharing one tier-4 label, with assorted missing cells. -/
def rowsTwoSameTier : List Record :=
  [{ week := 0, tier4 := "t", tier5 := "u", spend := some 2, conv := some 1,
     cpo := some 1, aov := none, roas := some 4 },
   { week := 1, tier4 := "t", tier5 := "u", spend := some 3, conv := none,
     cpo := some 3, aov := none, roas := none }]

/-- The single aggregated group of `rowsTwoSameTier` under the tier-4 key. -/
def groupTwoSameTier : GroupBase String :=
  { key := "t", spend := 5, conv := 1, cpo := some 2, aov := none, roas := some 4 }

/-- A derived group with low return-on-spend and high spend. -/
def gLow : Group String :=
  { key := "x", spend := 5, conv := 1, cpo := none, aov := none, roas := some 1,
    cpa := FVal.num 5, revenue := FVal.num 5 }

/-- A derived group with high return-on-spend and low spend. -/
def gHigh : Group String :=
  { key := "y", spend := 3, conv := 1, cpo := none, aov := none, roas := some 2,
    cpa := FVal.num 3, revenue := FVal.num 6 }

/-- Four constant weekly groups: the spec's `roas = [1.0, 1.0, 1.0, 1.0]`
example, with constant spend as well. -/
def constWeeks : List (GroupBase ℕ) :=
  [{ key := 0, spend := 1, conv := 1, cpo := some 1, aov := some 1, roas := some 1 },
   { key := 1, spend := 1, conv := 1, cpo := some 1, aov := some 1, roas := some 1 },
   { key := 2, spend := 1, conv := 1, cpo := some 1, aov := some 1, roas := some 1 },
   { key := 3, spend := 1, conv := 1, cpo := some 1, aov := some 1, roas := some 1 }]

/-- Specification-side description of one mean-aggregated field (§4.1 of the
design): the arithmetic mean over only the non-missing values, and an
undefined result — never zero — when every value is missing. -/
def meanSpec (cells : List (Option ℚ)) (res : Option ℚ) : Prop :=
  (cells.filterMap id = [] → res = none ∧ res ≠ some 0) ∧
  (∀ v vs, cells.filterMap id = v :: vs → res = some ((v :: vs).sum / (v :: vs).length))

theorem pmean_meanSpec (cells : List (Option ℚ)) : meanSpec cells (pmean cells) := by
  constructor
  · intro h
    unfold pmean
    rw [h]
    exact ⟨rfl, by simp⟩
  · intro v vs h
    unfold pmean
    rw [h]

theorem insertKey_perm {K : Type} [LinearOrder K] (k : K) (l : List K) :
    (insertKey k l).Perm (k :: l) := by
  induction l with
  | nil => exact List.Perm.refl _
  | cons x xs ih =>
    unfold insertKey
    by_cases h : k ≤ x
    · simp only [if_pos h]
      exact List.Perm.refl _
    · simp only [if_neg h]
      exact (ih.cons x).trans (List.Perm.swap k x xs)

theorem sortKeys_perm {K : Type} [LinearOrder K] (l : List K) :
    (sortKeys l).Perm l := by
  induction l with
  | nil => exact List.Perm.refl _
  | cons x xs ih =>
    unfold sortKeys
    exact (insertKey_perm x (sortKeys xs)).trans (ih.cons x)

theorem keysOf_nodup {K : Type} [LinearOrder K] (rows : List Record) (sel : Record → K) :
    (keysOf rows sel).Nodup := by
  unfold keysOf
  exact (sortKeys_perm _).symm.nodup (List.nodup_dedup _)

theorem mem_keysOf {K : Type} [LinearOrder K] (rows : List Record) (sel : Record → K) (r : Record)
    (hr : r ∈ rows) : sel r ∈ keysOf rows sel := by
  unfold keysOf
  exact ((sortKeys_perm _).mem_iff).2 (List.mem_dedup.2 (List.mem_map_of_mem sel hr))

theorem psum_cons (x : Option ℚ) (l : List (Option ℚ)) :
    psum (x :: l) = x.getD 0 + psum l := by
  cases x with
  | none => simp [psum, List.filterMap_cons]
  | some v => simp [psum, List.filterMap_cons]

theorem psum_filter_disjoint (f : Record → Option ℚ) (p q : Record → Prop)
    [DecidablePred p] [DecidablePred q] (hdisj : ∀ r, p r → ¬ q r) :
    ∀ rows : List Record,
      psum ((rows.filter (fun r => p r)).map f) + psum ((rows.filter (fun r => q r)).map f)
        = psum ((rows.filter (fun r => p r ∨ q r)).map f) := by
  intro rows
  induction rows with
  | nil => simp [psum]
  | cons r rest ih =>
    simp at ih
    by_cases hp : p r
    · have hq : ¬ q r := hdisj r hp
      simp only [List.filter_cons]
      simp [hp, hq, psum_cons]
      linarith [ih]
    · by_cases hq : q r
      · simp only [List.filter_cons]
        simp [hp, hq, psum_cons]
        linarith [ih]
      · simp only [List.filter_cons]
        simp [hp, hq]
        exact ih

theorem psum_parts {K : Type} [LinearOrder K] (f : Record → Option ℚ)
    (rows : List Record) (sel : Record → K) :
    ∀ ks : List K, ks.Nodup →
      ((ks.map (fun k => psum ((partOf rows sel k).map f))).sum : ℚ)
        = psum ((rows.filter (fun r => sel r ∈ ks)).map f) := by
  intro ks
  induction ks with
  | nil =>
    intro _
    simp [psum, List.filter_eq_nil_iff]
  | cons k rest ih =>
    intro hnd
    rcases List.nodup_cons.1 hnd with ⟨hk, hrest⟩
    simp only [List.map_cons, List.sum_cons]
    rw [ih hrest]
    unfold partOf
    have hdisj : ∀ r : Record, sel r = k → ¬ sel r ∈ rest := by
      intro r h hmem
      exact hk (h ▸ hmem)
    have hsplit := psum_filter_disjoint f (fun r => sel r = k) (fun r => sel r ∈ rest) hdisj rows
    rw [hsplit]
    have hfil : List.filter (fun r => decide (sel r = k ∨ sel r ∈ rest)) rows
        = List.filter (fun r => decide (sel r ∈ k :: rest)) rows := by
      apply List.filter_congr
      intro r _
      simp [List.mem_cons]
    rw [hfil]

theorem argmaxAcc_self_or_mem (l : List (ℕ × ℚ)) :
    ∀ best : ℕ × ℚ, argmaxAcc best l = best ∨ argmaxAcc best l ∈ l := by
  induction l with
  | nil =>
    intro best
    left
    rfl
  | cons p rest ih =>
    intro best
    unfold argmaxAcc
    rcases ih (if best.2 < p.2 then p else best) with h | h
    · rw [h]
      by_cases hc : best.2 < p.2
      · right
        rw [if_pos hc]
        exact List.mem_cons_self p rest
      · left
        rw [if_neg hc]
    · right
      exact List.mem_cons_of_mem p h

theorem argmaxAcc_ge (l : List (ℕ × ℚ)) :
    ∀ best : ℕ × ℚ, best.2 ≤ (argmaxAcc best l).2 ∧ ∀ q ∈ l, q.2 ≤ (argmaxAcc best l).2 := by
  induction l with
  | nil =>
    intro best
    exact ⟨le_refl _, by simp⟩
  | cons p rest ih =>
    intro best
    unfold argmaxAcc
    rcases ih (if best.2 < p.2 then p else best) with ⟨h1, h2⟩
    constructor
    · refine le_trans ?_ h1
      by_cases hc : best.2 < p.2
      · rw [if_pos hc]
        exact le_of_lt hc
      · rw [if_neg hc]
    · intro q hq
      rcases List.mem_cons.1 hq with rfl | hq'
      · refine le_trans ?_ h1
        by_cases hc : best.2 < q.2
        · rw [if_pos hc]
        · rw [if_neg hc]
          exact le_of_not_lt hc
      · exact h2 q hq'

theorem argmaxAcc_self_or_gt (l : List (ℕ × ℚ)) :
    ∀ best : ℕ × ℚ, argmaxAcc best l = best ∨ best.2 < (argmaxAcc best l).2 := by
  induction l with
  | nil =>
    intro best
    left
    rfl
  | cons p rest ih =>
    intro best
    unfold argmaxAcc
    by_cases hc : best.2 < p.2
    · right
      rw [if_pos hc]
      exact lt_of_lt_of_le hc (argmaxAcc_ge rest p).1
    · rw [if_neg hc]
      exact ih best

theorem argmaxAcc_first (l : List (ℕ × ℚ)) :
    ∀ best : ℕ × ℚ, List.Pairwise (fun a b => a.1 < b.1) (best :: l) →
      ∀ q ∈ best :: l, q.2 = (argmaxAcc best l).2 → (argmaxAcc best l).1 ≤ q.1 := by
  induction l with
  | nil =>
    intro best _ q hq _
    rcases List.mem_singleton.1 hq with rfl
    exact le_refl _
  | cons p rest ih =>
    intro best hpw q hq hval
    rcases List.pairwise_cons.1 hpw with ⟨hbest, hpw'⟩
    rcases List.pairwise_cons.1 hpw' with ⟨hpfst, hpwrest⟩
    have hpwb : List.Pairwise (fun a b : ℕ × ℚ => a.1 < b.1)
        ((if best.2 < p.2 then p else best) :: rest) := by
      refine List.pairwise_cons.2 ⟨?_, hpwrest⟩
      intro a ha
      by_cases hc : best.2 < p.2
      · rw [if_pos hc]
        exact hpfst a ha
      · rw [if_neg hc]
        exact hbest a (List.mem_cons_of_mem p ha)
    unfold argmaxAcc at hval ⊢
    rcases List.mem_cons.1 hq with rfl | hq'
    · by_cases hc : q.2 < p.2
      · exfalso
        rw [if_pos hc] at hval
        have h1 : p.2 ≤ (argmaxAcc p rest).2 := (argmaxAcc_ge rest p).1
        rw [← hval] at h1
        exact absurd (lt_of_lt_of_le hc h1) (lt_irrefl _)
      · rw [if_neg hc] at hval ⊢
        exact ih q (by rw [if_neg hc] at hpwb; exact hpwb) q (List.mem_cons_self q rest) hval
    · rcases List.mem_cons.1 hq' with rfl | hq''
      · by_cases hc : best.2 < q.2
        · rw [if_pos hc] at hval ⊢
          exact ih q hpw' q (List.mem_cons_self q rest) hval
        · rw [if_neg hc] at hval ⊢
          rcases argmaxAcc_self_or_gt rest best with h1 | h1
          · rw [h1]
            exact le_of_lt (hbest q (List.mem_cons_self q rest))
          · exfalso
            rw [← hval] at h1
            exact absurd (lt_of_le_of_lt (le_of_not_lt hc) h1) (lt_irrefl _)
      · by_cases hc : best.2 < p.2
        · rw [if_pos hc] at hval ⊢
          exact ih p (by rw [if_pos hc] at hpwb; exact hpwb) q (List.mem_cons_of_mem p hq'') hval
        · rw [if_neg hc] at hval ⊢
          exact ih best (by rw [if_neg hc] at hpwb; exact hpwb) q (List.mem_cons_of_mem best hq'') hval

theorem argminAcc_self_or_mem (l : List (ℕ × ℚ)) :
    ∀ best : ℕ × ℚ, argminAcc best l = best ∨ argminAcc best l ∈ l := by
  induction l with
  | nil =>
    intro best
    left
    rfl
  | cons p rest ih =>
    intro best
    unfold argminAcc
    rcases ih (if p.2 < best.2 then p else best) with h | h
    · rw [h]
      by_cases hc : p.2 < best.2
      · right
        rw [if_pos hc]
        exact List.mem_cons_self p rest
      · left
        rw [if_neg hc]
    · right
      exact List.mem_cons_of_mem p h

theorem argminAcc_le (l : List (ℕ × ℚ)) :
    ∀ best : ℕ × ℚ, (argminAcc best l).2 ≤ best.2 ∧ ∀ q ∈ l, (argminAcc best l).2 ≤ q.2 := by
  induction l with
  | nil =>
    intro best
    exact ⟨le_refl _, by simp⟩
  | cons p rest ih =>
    intro best
    unfold argminAcc
    rcases ih (if p.2 < best.2 then p else best) with ⟨h1, h2⟩
    constructor
    · refine le_trans h1 ?_
      by_cases hc : p.2 < best.2
      · rw [if_pos hc]
        exact le_of_lt hc
      · rw [if_neg hc]
    · intro q hq
      rcases List.mem_cons.1 hq with rfl | hq'
      · refine le_trans h1 ?_
        by_cases hc : q.2 < best.2
        · rw [if_pos hc]
        · rw [if_neg hc]
          exact le_of_not_lt hc
      · exact h2 q hq'

theorem argminAcc_self_or_lt (l : List (ℕ × ℚ)) :
    ∀ best : ℕ × ℚ, argminAcc best l = best ∨ (argminAcc best l).2 < best.2 := by
  induction l with
  | nil =>
    intro best
    left
    rfl
  | cons p rest ih =>
    intro best
    unfold argminAcc
    by_cases hc : p.2 < best.2
    · right
      rw [if_pos hc]
      exact lt_of_le_of_lt (argminAcc_le rest p).1 hc
    · rw [if_neg hc]
      exact ih best

theorem argminAcc_first (l : List (ℕ × ℚ)) :
    ∀ best : ℕ × ℚ, List.Pairwise (fun a b => a.1 < b.1) (best :: l) →
      ∀ q ∈ best :: l, q.2 = (argminAcc best l).2 → (argminAcc best l).1 ≤ q.1 := by
  induction l with
  | nil =>
    intro best _ q hq _
    rcases List.mem_singleton.1 hq with rfl
    exact le_refl _
  | cons p rest ih =>
    intro best hpw q hq hval
    rcases List.pairwise_cons.1 hpw with ⟨hbest, hpw'⟩
    rcases List.pairwise_cons.1 hpw' with ⟨hpfst, hpwrest⟩
    have hpwb : List.Pairwise (fun a b : ℕ × ℚ => a.1 < b.1)
        ((if p.2 < best.2 then p else best) :: rest) := by
      refine List.pairwise_cons.2 ⟨?_, hpwrest⟩
      intro a ha
      by_cases hc : p.2 < best.2
      · rw [if_pos hc]
        exact hpfst a ha
      · rw [if_neg hc]
        exact hbest a (List.mem_cons_of_mem p ha)
    unfold argminAcc at hval ⊢
    rcases List.mem_cons.1 hq with rfl | hq'
    · by_cases hc : p.2 < q.2
      · exfalso
        rw [if_pos hc] at hval
        have h1 : (argminAcc p rest).2 ≤ p.2 := (argminAcc_le rest p).1
        rw [← hval] at h1
        exact absurd (lt_of_le_of_lt h1 hc) (lt_irrefl _)
      · rw [if_neg hc] at hval ⊢
        exact ih q (by rw [if_neg hc] at hpwb; exact hpwb) q (List.mem_cons_self q rest) hval
    · rcases List.mem_cons.1 hq' with rfl | hq''
      · by_cases hc : q.2 < best.2
        · rw [if_pos hc] at hval ⊢
          exact ih q hpw' q (List.mem_cons_self q rest) hval
        · rw [if_neg hc] at hval ⊢
          rcases argminAcc_self_or_lt rest best with h1 | h1
          · rw [h1]
            exact le_of_lt (hbest q (List.mem_cons_self q rest))
          · exfalso
            rw [← hval] at h1
            exact absurd (lt_of_lt_of_le h1 (le_of_not_lt hc)) (lt_irrefl _)
      · by_cases hc : p.2 < best.2
        · rw [if_pos hc] at hval ⊢
          exact ih p (by rw [if_pos hc] at hpwb; exact hpwb) q (List.mem_cons_of_mem p hq'') hval
        · rw [if_neg hc] at hval ⊢
          exact ih best (by rw [if_neg hc] at hpwb; exact hpwb) q (List.mem_cons_of_mem best hq'') hval

theorem mem_definedPairsFrom (xs : List (Option ℚ)) :
    ∀ n i v, (i, v) ∈ definedPairsFrom n xs ↔ ∃ j, xs[j]? = some (some v) ∧ i = n + j := by
  induction xs with
  | nil =>
    intro n i v
    simp [definedPairsFrom]
  | cons x rest ih =>
    intro n i v
    cases x with
    | none =>
      unfold definedPairsFrom
      rw [ih (n + 1) i v]
      constructor
      · rintro ⟨j, hj, rfl⟩
        exact ⟨j + 1, by simpa using hj, by omega⟩
      · rintro ⟨j, hj, rfl⟩
        cases j with
        | zero => simp at hj
        | succ j' => exact ⟨j', by simpa using hj, by omega⟩
    | some w =>
      unfold definedPairsFrom
      rw [List.mem_cons, ih (n + 1) i v]
      constructor
      · rintro (heq | ⟨j, hj, rfl⟩)
        · rcases Prod.mk.injEq .. ▸ heq with ⟨rfl, rfl⟩
          exact ⟨0, by simp, by omega⟩
        · exact ⟨j + 1, by simpa using hj, by omega⟩
      · rintro ⟨j, hj, rfl⟩
        cases j with
        | zero =>
          left
          simp only [List.getElem?_cons_zero, Option.some.injEq] at hj
          rw [hj]
          simp
        | succ j' =>
          right
          exact ⟨j', by simpa using hj, by omega⟩

theorem definedPairsFrom_fst_ge (xs : List (Option ℚ)) (n : ℕ) (p : ℕ × ℚ)
    (hp : p ∈ definedPairsFrom n xs) : n ≤ p.1 := by
  rcases p with ⟨i, v⟩
  rcases (mem_definedPairsFrom xs n i v).1 hp with ⟨j, _, rfl⟩
  omega

theorem definedPairsFrom_pairwise (xs : List (Option ℚ)) :
    ∀ n, List.Pairwise (fun a b : ℕ × ℚ => a.1 < b.1) (definedPairsFrom n xs) := by
  induction xs with
  | nil =>
    intro n
    simp [definedPairsFrom]
  | cons x rest ih =>
    intro n
    cases x with
    | none =>
      unfold definedPairsFrom
      exact ih (n + 1)
    | some w =>
      unfold definedPairsFrom
      refine List.pairwise_cons.2 ⟨?_, ih (n + 1)⟩
      intro b hb
      have := definedPairsFrom_fst_ge rest (n + 1) b hb
      show n < b.1
      omega

theorem definedPairsFrom_eq_nil (xs : List (Option ℚ)) (h : ∀ x ∈ xs, x = none) :
    ∀ n, definedPairsFrom n xs = [] := by
  induction xs with
  | nil =>
    intro n
    rfl
  | cons x rest ih =>
    intro n
    have hx : x = none := h x (List.mem_cons_self x rest)
    subst hx
    unfold definedPairsFrom
    exact ih (fun y hy => h y (List.mem_cons_of_mem none hy)) (n + 1)

theorem idxmax_all_none (xs : List (Option ℚ)) (h : ∀ x ∈ xs, x = none) :
    idxmax xs = none := by
  unfold idxmax definedPairs
  rw [definedPairsFrom_eq_nil xs h 0]

theorem idxmin_all_none (xs : List (Option ℚ)) (h : ∀ x ∈ xs, x = none) :
    idxmin xs = none := by
  unfold idxmin definedPairs
  rw [definedPairsFrom_eq_nil xs h 0]

theorem mem_definedPairs (xs : List (Option ℚ)) (j : ℕ) (v : ℚ) :
    (j, v) ∈ definedPairs xs ↔ xs[j]? = some (some v) := by
  unfold definedPairs
  rw [mem_definedPairsFrom xs 0 j v]
  constructor
  · rintro ⟨j', hj, rfl⟩
    simpa using hj
  · intro hj
    exact ⟨j, hj, by omega⟩

theorem idxmax_spec (xs : List (Option ℚ)) (i : ℕ) (h : idxmax xs = some i) :
    ∃ w : ℚ, xs[i]? = some (some w) ∧
      (∀ (j : ℕ) (u : ℚ), xs[j]? = some (some u) → u ≤ w) ∧
      (∀ j : ℕ, xs[j]? = some (some w) → i ≤ j) := by
  unfold idxmax at h
  cases hd : definedPairs xs with
  | nil =>
    rw [hd] at h
    simp at h
  | cons p rest =>
    rw [hd] at h
    simp only [Option.some.injEq] at h
    have hmem : argmaxAcc p rest ∈ definedPairs xs := by
      rw [hd]
      rcases argmaxAcc_self_or_mem rest p with h1 | h1
      · rw [h1]
        exact List.mem_cons_self p rest
      · exact List.mem_cons_of_mem p h1
    have hget : xs[(argmaxAcc p rest).1]? = some (some (argmaxAcc p rest).2) :=
      (mem_definedPairs xs _ _).1 hmem
    refine ⟨(argmaxAcc p rest).2, by rw [← h]; exact hget, ?_, ?_⟩
    · intro j u hj
      have hju : (j, u) ∈ definedPairs xs := (mem_definedPairs xs j u).2 hj
      rw [hd] at hju
      rcases List.mem_cons.1 hju with heq | hmem'
      · have hval : u = p.2 := congrArg Prod.snd heq
        rw [hval]
        exact (argmaxAcc_ge rest p).1
      · exact (argmaxAcc_ge rest p).2 (j, u) hmem'
    · intro j hj
      have hjw : (j, (argmaxAcc p rest).2) ∈ definedPairs xs :=
        (mem_definedPairs xs j _).2 hj
      rw [hd] at hjw
      have hpw : List.Pairwise (fun a b : ℕ × ℚ => a.1 < b.1) (p :: rest) := by
        rw [← hd]
        exact definedPairsFrom_pairwise xs 0
      have := argmaxAcc_first rest p hpw (j, (argmaxAcc p rest).2) hjw rfl
      rw [← h]
      exact this

theorem idxmin_spec (xs : List (Option ℚ)) (i : ℕ) (h : idxmin xs = some i) :
    ∃ w : ℚ, xs[i]? = some (some w) ∧
      (∀ (j : ℕ) (u : ℚ), xs[j]? = some (some u) → w ≤ u) ∧
      (∀ j : ℕ, xs[j]? = some (some w) → i ≤ j) := by
  unfold idxmin at h
  cases hd : definedPairs xs with
  | nil =>
    rw [hd] at h
    simp at h
  | cons p rest =>
    rw [hd] at h
    simp only [Option.some.injEq] at h
    have hmem : argminAcc p rest ∈ definedPairs xs := by
      rw [hd]
      rcases argminAcc_self_or_mem rest p with h1 | h1
      · rw [h1]
        exact List.mem_cons_self p rest
      · exact List.mem_cons_of_mem p h1
    have hget : xs[(argminAcc p rest).1]? = some (some (argminAcc p rest).2) :=
      (mem_definedPairs xs _ _).1 hmem
    refine ⟨(argminAcc p rest).2, by rw [← h]; exact hget, ?_, ?_⟩
    · intro j u hj
      have hju : (j, u) ∈ definedPairs xs := (mem_definedPairs xs j u).2 hj
      rw [hd] at hju
      rcases List.mem_cons.1 hju with heq | hmem'
      · have hval : u = p.2 := congrArg Prod.snd heq
        rw [hval]
        exact (argminAcc_le rest p).1
      · exact (argminAcc_le rest p).2 (j, u) hmem'
    · intro j hj
      have hjw : (j, (argminAcc p rest).2) ∈ definedPairs xs :=
        (mem_definedPairs xs j _).2 hj
      rw [hd] at hjw
      have hpw : List.Pairwise (fun a b : ℕ × ℚ => a.1 < b.1) (p :: rest) := by
        rw [← hd]
        exact definedPairsFrom_pairwise xs 0
      have := argminAcc_first rest p hpw (j, (argminAcc p rest).2) hjw rfl
      rw [← h]
      exact this

theorem idxmax_isSome (xs : List (Option ℚ)) (j : ℕ) (v : ℚ) (h : xs[j]? = some (some v)) :
    ∃ i, idxmax xs = some i := by
  have hmem : (j, v) ∈ definedPairs xs := (mem_definedPairs xs j v).2 h
  unfold idxmax
  cases hd : definedPairs xs with
  | nil =>
    rw [hd] at hmem
    simp at hmem
  | cons p rest => exact ⟨(argmaxAcc p rest).1, rfl⟩

theorem idxmin_isSome (xs : List (Option ℚ)) (j : ℕ) (v : ℚ) (h : xs[j]? = some (some v)) :
    ∃ i, idxmin xs = some i := by
  have hmem : (j, v) ∈ definedPairs xs := (mem_definedPairs xs j v).2 h
  unfold idxmin
  cases hd : definedPairs xs with
  | nil =>
    rw [hd] at hmem
    simp at hmem
  | cons p rest => exact ⟨(argminAcc p rest).1, rfl⟩

theorem pairCell_swap (p : Option ℚ × Option ℚ) :
    pairCell (Prod.swap p) = (pairCell p).map Prod.swap := by
  rcases p with ⟨_ | a, _ | b⟩ <;> rfl

theorem pairedObs_swap (xs ys : List (Option ℚ)) :
    pairedObs ys xs = (pairedObs xs ys).map Prod.swap := by
  unfold pairedObs
  rw [← List.zip_swap xs ys]
  rw [List.filterMap_map]
  rw [List.map_filterMap]
  congr 1
  funext p
  exact pairCell_swap p

theorem map_fst_swap (ps : List (ℚ × ℚ)) :
    (ps.map Prod.swap).map Prod.fst = ps.map Prod.snd := by
  rw [List.map_map]
  rfl

theorem map_snd_swap (ps : List (ℚ × ℚ)) :
    (ps.map Prod.swap).map Prod.snd = ps.map Prod.fst := by
  rw [List.map_map]
  rfl

theorem covSum_swap (ps : List (ℚ × ℚ)) : covSum (ps.map Prod.swap) = covSum ps := by
  unfold covSum
  rw [map_fst_swap, map_snd_swap, List.map_map]
  congr 1
  congr 1
  funext p
  show ((Prod.swap p).1 - qmean (ps.map Prod.snd)) * ((Prod.swap p).2 - qmean (ps.map Prod.fst))
      = (p.1 - qmean (ps.map Prod.fst)) * (p.2 - qmean (ps.map Prod.snd))
  rcases p with ⟨a, b⟩
  show (b - qmean (ps.map Prod.snd)) * (a - qmean (ps.map Prod.fst))
      = (a - qmean (ps.map Prod.fst)) * (b - qmean (ps.map Prod.snd))
  ring

theorem pearson_symm (xs ys : List (Option ℚ)) : pearson xs ys = pearson ys xs := by
  unfold pearson
  rw [pairedObs_swap xs ys]
  rw [map_fst_swap, map_snd_swap, covSum_swap]
  by_cases h1 : varSum ((pairedObs xs ys).map Prod.fst) = 0 <;>
    by_cases h2 : varSum ((pairedObs xs ys).map Prod.snd) = 0 <;>
      simp [h1, h2, mul_comm]

theorem pairedObs_self (xs : List (Option ℚ)) :
    pairedObs xs xs = (xs.filterMap id).map (fun a => (a, a)) := by
  induction xs with
  | nil => rfl
  | cons x rest ih =>
    unfold pairedObs at ih ⊢
    rw [List.zip_cons_cons, List.filterMap_cons, List.filterMap_cons]
    cases x with
    | none => simpa [pairCell] using ih
    | some a => simpa [pairCell] using ih

theorem map_fst_diag (l : List ℚ) :
    (l.map (fun a => (a, a))).map Prod.fst = l := by
  rw [List.map_map]
  exact List.map_id l

theorem map_snd_diag (l : List ℚ) :
    (l.map (fun a => (a, a))).map Prod.snd = l := by
  rw [List.map_map]
  exact List.map_id l

theorem covSum_diag (l : List ℚ) :
    covSum (l.map (fun a => (a, a))) = varSum l := by
  unfold covSum varSum
  rw [map_fst_diag, map_snd_diag, List.map_map]
  congr 1
  congr 1
  funext a
  show (a - qmean l) * (a - qmean l) = (a - qmean l) ^ 2
  ring

theorem varSum_nonneg (l : List ℚ) : 0 ≤ varSum l := by
  unfold varSum
  apply List.sum_nonneg
  intro x hx
  rcases List.mem_map.1 hx with ⟨a, _, rfl⟩
  exact sq_nonneg _

theorem pearson_self (xs : List (Option ℚ)) (h : varSum (xs.filterMap id) ≠ 0) :
    pearson xs xs = some 1 := by
  unfold pearson
  rw [pairedObs_self, map_fst_diag, map_snd_diag, covSum_diag]
  rw [if_neg (by simp [h])]
  have hv : (0 : ℝ) ≤ (varSum (xs.filterMap id) : ℝ) := by
    exact_mod_cast varSum_nonneg _
  rw [Real.sqrt_mul_self hv]
  rw [div_self (by exact_mod_cast h)]

/-- Claim C1, counterexample: on the spec's example group `B` (spend 50,
summed conversions 0) the derived `CPA` of line 41 is `+inf`, not a missing
value — pandas float division of a positive spend by zero conversions yields
infinity — so the claim's "undefined/missing whenever summed conversions is
zero, never infinity" is false on the code. -/
theorem claim1_cpa_inf_counterexample :
    (withDerived exampleGroupB).cpa = FVal.inf ∧ (withDerived exampleGroupB).cpa ≠ FVal.nan := by
  have h : (withDerived exampleGroupB).cpa = FVal.inf := by
    norm_num [withDerived, divSF, exampleGroupB]
  refine ⟨h, ?_⟩
  rw [h]
  exact fun hh => FVal.noConfusion hh

/-- Claim C1 (amended): the derived metrics of lines 41–42 never raise and
satisfy `CPA = spend / conversions` with float semantics — a finite quotient
when conversions ≠ 0, `+inf` (not a missing value) when conversions = 0 and
spend > 0, `-inf` when conversions = 0 and spend < 0, and `NaN` when both
are 0 — and `revenue = spend * ROAS`, missing exactly when mean `ROAS` is
missing.  On the spec's example groups: `A.CPA = 10`, `A.revenue = 200`,
`B.CPA = +inf` (not undefined), `B.revenue = 50`. -/
theorem claim1_derived_metrics :
    (∀ (K : Type) (g : GroupBase K),
      (withDerived g).cpa = divSF g.spend g.conv ∧
      (g.conv ≠ 0 → (withDerived g).cpa = FVal.num (g.spend / g.conv)) ∧
      (g.conv = 0 → 0 < g.spend → (withDerived g).cpa = FVal.inf) ∧
      (g.conv = 0 → g.spend < 0 → (withDerived g).cpa = FVal.neginf) ∧
      (g.conv = 0 → g.spend = 0 → (withDerived g).cpa = FVal.nan) ∧
      (g.roas = none → (withDerived g).revenue = FVal.nan) ∧
      (∀ q : ℚ, g.roas = some q → (withDerived g).revenue = FVal.num (g.spend * q))) ∧
    (withDerived exampleGroupA).cpa = FVal.num 10 ∧
    (withDerived exampleGroupA).revenue = FVal.num 200 ∧
    (withDerived exampleGroupB).cpa = FVal.inf ∧
    (withDerived exampleGroupB).revenue = FVal.num 50 := by
  constructor
  · intro K g
    refine ⟨rfl, ?_, ?_, ?_, ?_, ?_, ?_⟩
    · intro h
      simp [withDerived, divSF, h]
    · intro h0 hpos
      simp [withDerived, divSF, h0, hpos]
    · intro h0 hneg
      simp [withDerived, divSF, h0, hneg, hneg.not_lt]
    · intro h0 hz
      simp [withDerived, divSF, h0, hz]
    · intro h
      simp [withDerived, mulSF, h]
    · intro q h
      simp [withDerived, mulSF, h]
  · refine ⟨?_, ?_, ?_, ?_⟩ <;>
      norm_num [withDerived, divSF, mulSF, exampleGroupA, exampleGroupB]

/-- Witness for `claim1_derived_metrics`, instantiated at the example
groups `A` (finite quotient branch) and `B` (division-by-zero branch). -/
theorem claim1_derived_metrics_witness :
    exampleGroupB.conv = 0 ∧ 0 < exampleGroupB.spend ∧ exampleGroupA.conv ≠ 0 ∧
    (withDerived exampleGroupB).cpa = FVal.inf ∧
    (withDerived exampleGroupA).cpa = FVal.num (exampleGroupA.spend / exampleGroupA.conv) := by
  refine ⟨rfl, by norm_num [exampleGroupB], by norm_num [exampleGroupA], ?_, ?_⟩
  · exact (claim1_derived_metrics.1 String exampleGroupB).2.2.1 rfl (by norm_num [exampleGroupB])
  · exact (claim1_derived_metrics.1 String exampleGroupA).2.1 (by norm_num [exampleGroupA])

/-- Claim C2, counterexample: the script installs no handler around the
ARIMA fit of lines 128–130, so when the fit fails on a 3-point series the
exception propagates and nothing of the dashboard renders — the claim's
"the rest of the dashboard still renders" is false on the code. -/
theorem claim2_unhandled_fit_counterexample :
    runDashboard fitInsufficient rowsThreeWeeks
        = Except.error (RunError.fitFailure FitError.insufficientData) ∧
    rendersAll (runDashboard fitInsufficient rowsThreeWeeks) = false :=
  ⟨rfl, rfl⟩

/-- Claim C2 (amended): the forecasting step has no error handling — a fit
failure propagates out of the whole run unchanged, and no section of the
dashboard is produced — while on a successful fit the rendered dashboard
carries exactly the forecast returned by the 4-step fit call. -/
theorem claim2_forecast_propagation
    (fit : List (Option ℚ) → ℕ → Except FitError (List ℚ)) (rows : List Record) :
    (∀ e : FitError,
      fit (weeklyRoas (aggBase rows (fun r => r.week))) 4 = Except.error e →
        runDashboard fit rows = Except.error (RunError.fitFailure e) ∧
        rendersAll (runDashboard fit rows) = false) ∧
    (∀ (fc : List ℚ) (d : Dashboard),
      fit (weeklyRoas (aggBase rows (fun r => r.week))) 4 = Except.ok fc →
        runDashboard fit rows = Except.ok d → d.forecast = fc) := by
  constructor
  · intro e he
    have h1 : runDashboard fit rows = Except.error (RunError.fitFailure e) := by
      simp only [runDashboard]
      rw [he]
    exact ⟨h1, by rw [h1]; rfl⟩
  · intro fc d hfit hok
    simp only [runDashboard] at hok
    rw [hfit] at hok
    simp only [] at hok
    rcases h4 : tierInsights (campaignAnalysis rows (fun r => r.tier4)) with _ | i4
    · rw [h4] at hok
      simp at hok
    · rcases h5 : tierInsights (campaignAnalysis rows (fun r => r.tier5)) with _ | i5
      · rw [h4, h5] at hok
        simp at hok
      · rcases hw : weekInsights (aggBase rows (fun r => r.week)) fc with _ | iw
        · rw [h4, h5, hw] at hok
          simp at hok
        · rw [h4, h5, hw] at hok
          simp only [Except.ok.injEq] at hok
          rw [← hok]

/-- Witness for `claim2_forecast_propagation`: the failing branch at a
fit stub that raises, and the successful branch at a fit stub forecasting
four constant points on a one-record input. -/
theorem claim2_forecast_propagation_witness :
    fitInsufficient (weeklyRoas (aggBase rowsOneConst (fun r => r.week))) 4
        = Except.error FitError.insufficientData ∧
    runDashboard fitInsufficient rowsOneConst
        = Except.error (RunError.fitFailure FitError.insufficientData) ∧
    dashOne.forecast = [1, 1, 1, 1] := by
  refine ⟨rfl, ?_, ?_⟩
  · exact ((claim2_forecast_propagation fitInsufficient rowsOneConst).1
      FitError.insufficientData rfl).1
  · have hrun : runDashboard fitConstOne rowsOneConst = Except.ok dashOne := by
      norm_num [runDashboard, campaignAnalysis, aggBase, keysOf, sortKeys, insertKey,
        aggRow, withDerived, partOf, psum, pmean, rowsOneConst, fitConstOne, weeklyRoas, dashOne,
        tierInsights, weekInsights, idxmax, idxmin, definedPairs, definedPairsFrom,
        argmaxAcc, argminAcc,
        spendTrendLabel, roasTrendLabel, forecastTrendLabel, fgt, divSF, mulSF,
        List.filterMap_cons, List.dedup_cons_of_not_mem, List.dedup_nil, List.replicate]
    exact (claim2_forecast_propagation fitConstOne rowsOneConst).2 [1, 1, 1, 1] dashOne rfl hrun

theorem getElem?_map_col {K : Type} (gs : List (Group K)) (f : Group K → Option ℚ)
    (i : ℕ) (y : Option ℚ) (h : (gs.map f)[i]? = some y) :
    ∃ g : Group K, gs[i]? = some g ∧ f g = y := by
  rw [List.getElem?_map] at h
  cases hg : gs[i]? with
  | none =>
    rw [hg] at h
    simp at h
  | some g =>
    rw [hg] at h
    simp at h
    exact ⟨g, rfl, h⟩

/-- Claim C3: whenever the insight selections of lines 144–146 / 171–173
succeed, the group picked by `ROAS.idxmax` has a mean return-on-spend no
other group strictly exceeds, the group picked by `ROAS.idxmin` has one
strictly below no other group's, the group picked by `Spend.idxmax` has a
spend no other group strictly exceeds, and on ties each selection lands on
the first occurrence in the aggregated frame's canonical order. -/
theorem claim3_extremal_selection {K : Type} (gs : List (Group K)) (i j k : ℕ)
    (hb : idxmax (gs.map (fun g => g.roas)) = some i)
    (hw : idxmin (gs.map (fun g => g.roas)) = some j)
    (hs : idxmax (gs.map (fun g => some g.spend)) = some k) :
    (∃ b : Group K, gs[i]? = some b ∧ ∃ v : ℚ, b.roas = some v ∧
      (∀ (j' : ℕ) (g : Group K) (u : ℚ), gs[j']? = some g → g.roas = some u → u ≤ v) ∧
      (∀ (j' : ℕ) (g : Group K), gs[j']? = some g → g.roas = some v → i ≤ j')) ∧
    (∃ w : Group K, gs[j]? = some w ∧ ∃ v : ℚ, w.roas = some v ∧
      (∀ (j' : ℕ) (g : Group K) (u : ℚ), gs[j']? = some g → g.roas = some u → v ≤ u) ∧
      (∀ (j' : ℕ) (g : Group K), gs[j']? = some g → g.roas = some v → j ≤ j')) ∧
    (∃ t : Group K, gs[k]? = some t ∧
      (∀ (j' : ℕ) (g : Group K), gs[j']? = some g → g.spend ≤ t.spend) ∧
      (∀ (j' : ℕ) (g : Group K), gs[j']? = some g → g.spend = t.spend → k ≤ j')) := by
  refine ⟨?_, ?_, ?_⟩
  · obtain ⟨v, hv, hmax, hfirst⟩ := idxmax_spec _ i hb
    obtain ⟨b, hbmem, hbval⟩ := getElem?_map_col gs _ i (some v) hv
    refine ⟨b, hbmem, v, hbval, ?_, ?_⟩
    · intro j' g u hg hgu
      apply hmax j' u
      rw [List.getElem?_map, hg]
      simp [hgu]
    · intro j' g hg hgv
      apply hfirst j'
      rw [List.getElem?_map, hg]
      simp [hgv]
  · obtain ⟨v, hv, hmin, hfirst⟩ := idxmin_spec _ j hw
    obtain ⟨w, hwmem, hwval⟩ := getElem?_map_col gs _ j (some v) hv
    refine ⟨w, hwmem, v, hwval, ?_, ?_⟩
    · intro j' g u hg hgu
      apply hmin j' u
      rw [List.getElem?_map, hg]
      simp [hgu]
    · intro j' g hg hgv
      apply hfirst j'
      rw [List.getElem?_map, hg]
      simp [hgv]
  · obtain ⟨v, hv, hmax, hfirst⟩ := idxmax_spec _ k hs
    obtain ⟨t, htmem, htval⟩ := getElem?_map_col gs _ k (some v) hv
    simp only [Option.some.injEq] at htval
    refine ⟨t, htmem, ?_, ?_⟩
    · intro j' g hg
      have := hmax j' g.spend (by rw [List.getElem?_map, hg]; rfl)
      rw [htval]
      exact this
    · intro j' g hg hgs
      apply hfirst j'
      rw [List.getElem?_map, hg]
      simp [hgs, htval]

/-- Witness for `claim3_extremal_selection` on the two-group frame
`[gLow, gHigh]`: best is position 1 (`ROAS` 2), worst is position 0
(`ROAS` 1), highest spend is position 0 (spend 5). -/
theorem claim3_extremal_selection_witness :
    idxmax ([gLow, gHigh].map (fun g => g.roas)) = some 1 ∧
    (∃ b : Group String, ([gLow, gHigh] : List (Group String))[1]? = some b ∧ ∃ v : ℚ,
      b.roas = some v ∧
      (∀ (j' : ℕ) (g : Group String) (u : ℚ),
        ([gLow, gHigh] : List (Group String))[j']? = some g → g.roas = some u → u ≤ v) ∧
      (∀ (j' : ℕ) (g : Group String),
        ([gLow, gHigh] : List (Group String))[j']? = some g → g.roas = some v → 1 ≤ j')) := by
  have h := claim3_extremal_selection [gLow, gHigh] 1 0 0 (by decide) (by decide) (by decide)
  exact ⟨by decide, h.1⟩

/-- Claim C9: as soon as one group has a defined value of the ranked
metric, the `idxmax`/`idxmin` selections of lines 144–146, 171–173 and
198–199 succeed and the selected group has a defined value of that metric
(the pandas extrema skip NaN entries). -/
theorem claim9_selection_skips_missing {K : Type} (gs : List (Group K))
    (j0 : ℕ) (g0 : Group K) (v0 : ℚ)
    (hj : gs[j0]? = some g0) (hv : g0.roas = some v0) :
    (∃ (i : ℕ) (b : Group K), idxmax (gs.map (fun g => g.roas)) = some i ∧
      gs[i]? = some b ∧ b.roas ≠ none) ∧
    (∃ (i : ℕ) (b : Group K), idxmin (gs.map (fun g => g.roas)) = some i ∧
      gs[i]? = some b ∧ b.roas ≠ none) ∧
    (∃ (i : ℕ) (b : Group K), idxmax (gs.map (fun g => some g.spend)) = some i ∧
      gs[i]? = some b) := by
  have hcol : (gs.map (fun g => g.roas))[j0]? = some (some v0) := by
    rw [List.getElem?_map, hj]
    simp [hv]
  have hscol : (gs.map (fun g => some g.spend))[j0]? = some (some g0.spend) := by
    rw [List.getElem?_map, hj]
    rfl
  refine ⟨?_, ?_, ?_⟩
  · obtain ⟨i, hi⟩ := idxmax_isSome _ j0 v0 hcol
    obtain ⟨w, hwv, _, _⟩ := idxmax_spec _ i hi
    obtain ⟨b, hbmem, hbval⟩ := getElem?_map_col gs _ i (some w) hwv
    exact ⟨i, b, hi, hbmem, by rw [hbval]; exact fun hh => Option.noConfusion hh⟩
  · obtain ⟨i, hi⟩ := idxmin_isSome _ j0 v0 hcol
    obtain ⟨w, hwv, _, _⟩ := idxmin_spec _ i hi
    obtain ⟨b, hbmem, hbval⟩ := getElem?_map_col gs _ i (some w) hwv
    exact ⟨i, b, hi, hbmem, by rw [hbval]; exact fun hh => Option.noConfusion hh⟩
  · obtain ⟨i, hi⟩ := idxmax_isSome _ j0 g0.spend hscol
    obtain ⟨w, hwv, _, _⟩ := idxmax_spec _ i hi
    obtain ⟨b, hbmem, _⟩ := getElem?_map_col gs _ i (some w) hwv
    exact ⟨i, b, hi, hbmem⟩

/-- Witness for `claim9_selection_skips_missing` on `[gLow, gHigh]`, whose
position-0 group has defined `ROAS` 1. -/
theorem claim9_selection_skips_missing_witness :
    ([gLow, gHigh] : List (Group String))[0]? = some gLow ∧ gLow.roas = some 1 ∧
    (∃ (i : ℕ) (b : Group String), idxmax ([gLow, gHigh].map (fun g => g.roas)) = some i ∧
      ([gLow, gHigh] : List (Group String))[i]? = some b ∧ b.roas ≠ none) := by
  have h := claim9_selection_skips_missing [gLow, gHigh] 0 gLow 1 (by decide) (by decide)
  exact ⟨by decide, by decide, h.1⟩

/-- Claim C10: when every record's `ROAS` cell is missing, every aggregated
mean `ROAS` is missing, the `idxmax` selection of line 144 fails (pandas
raises on an all-NaN column), and — because nothing catches it — the whole
insights section aborts instead of reporting its entries as missing. -/
theorem withDerived_roas {K : Type} (g : GroupBase K) : (withDerived g).roas = g.roas :=
  rfl

theorem aggBase_roas_none {K : Type} [LinearOrder K] (rows : List Record) (sel : Record → K)
    (hnan : ∀ r ∈ rows, r.roas = none) :
    ∀ gb ∈ aggBase rows sel, gb.roas = none := by
  intro gb hgb
  rcases List.mem_map.1 hgb with ⟨kk, _, rfl⟩
  show pmean ((partOf rows sel kk).map Record.roas) = none
  unfold pmean
  have hfm : ((partOf rows sel kk).map Record.roas).filterMap id = [] := by
    rw [List.filterMap_eq_nil_iff]
    intro a ha
    rcases List.mem_map.1 ha with ⟨r, hr, rfl⟩
    have : r ∈ rows := (List.mem_filter.1 hr).1
    simp [hnan r this]
  rw [hfm]

theorem claim10_allnan_selection_raises
    (fit : List (Option ℚ) → ℕ → Except FitError (List ℚ)) (rows : List Record) (fc : List ℚ)
    (hne : rows ≠ [])
    (hnan : ∀ r ∈ rows, r.roas = none)
    (hfit : fit (weeklyRoas (aggBase rows (fun r => r.week))) 4 = Except.ok fc) :
    idxmax ((campaignAnalysis rows (fun r => r.tier4)).map (fun g => g.roas)) = none ∧
    tierInsights (campaignAnalysis rows (fun r => r.tier4)) = none ∧
    runDashboard fit rows = Except.error RunError.insightFailure := by
  have hall : ∀ x ∈ (campaignAnalysis rows (fun r => r.tier4)).map (fun g => g.roas), x = none := by
    intro x hx
    rcases List.mem_map.1 hx with ⟨g, hg, rfl⟩
    rcases List.mem_map.1 hg with ⟨gb, hgb, rfl⟩
    rw [withDerived_roas]
    exact aggBase_roas_none rows (fun r => r.tier4) hnan gb hgb
  have hmax : idxmax ((campaignAnalysis rows (fun r => r.tier4)).map (fun g => g.roas)) = none :=
    idxmax_all_none _ hall
  have ht4 : tierInsights (campaignAnalysis rows (fun r => r.tier4)) = none := by
    unfold tierInsights
    rw [hmax]
    rfl
  refine ⟨hmax, ht4, ?_⟩
  simp only [runDashboard]
  rw [hfit]
  simp only []
  rw [ht4]

/-- Witness for `claim10_allnan_selection_raises` on the one-record input
whose only `ROAS` cell failed parsing, with an always-converging fit. -/
theorem claim10_allnan_selection_raises_witness :
    rowsAllNaN ≠ [] ∧
    runDashboard fitConstOne rowsAllNaN = Except.error RunError.insightFailure := by
  have hnan : ∀ r ∈ rowsAllNaN, r.roas = none := by
    intro r hr
    simp only [rowsAllNaN, List.mem_singleton] at hr
    rw [hr]
  have h := claim10_allnan_selection_raises fitConstOne rowsAllNaN (List.replicate 4 1)
    (by simp [rowsAllNaN]) hnan rfl
  exact ⟨by simp [rowsAllNaN], h.2.2⟩

/-- Claim C4: every row of the aggregated frame (any grouping key) carries
the sum of its partition's non-missing spends, the sum of its non-missing
conversions, and, for each mean-aggregated column, the arithmetic mean over
only the non-missing values — `none`, never zero, when every value of the
partition is missing — and every record's key value owns an aggregated row. -/
theorem claim4_aggregation_characterised {K : Type} [LinearOrder K]
    (rows : List Record) (sel : Record → K) (g : GroupBase K) (hg : g ∈ aggBase rows sel) :
    g.spend = (((partOf rows sel g.key).map Record.spend).filterMap id).sum ∧
    g.conv = (((partOf rows sel g.key).map Record.conv).filterMap id).sum ∧
    meanSpec ((partOf rows sel g.key).map Record.cpo) g.cpo ∧
    meanSpec ((partOf rows sel g.key).map Record.aov) g.aov ∧
    meanSpec ((partOf rows sel g.key).map Record.roas) g.roas ∧
    (∀ r ∈ rows, ∃ g' ∈ aggBase rows sel, g'.key = sel r) := by
  rcases List.mem_map.1 hg with ⟨k, _, rfl⟩
  refine ⟨rfl, rfl, pmean_meanSpec _, pmean_meanSpec _, pmean_meanSpec _, ?_⟩
  intro r hr
  exact ⟨aggRow rows sel (sel r), List.mem_map_of_mem _ (mem_keysOf rows sel r hr), rfl⟩

/-- Witness for `claim4_aggregation_characterised` on the two-record input
`rowsTwoSameTier`: its single tier-4 partition sums spend to 5, and its
all-missing `AOV` column aggregates to a missing mean, not zero. -/
theorem claim4_aggregation_characterised_witness :
    groupTwoSameTier ∈ aggBase rowsTwoSameTier (fun r => r.tier4) ∧
    groupTwoSameTier.spend
      = (((partOf rowsTwoSameTier (fun r => r.tier4) groupTwoSameTier.key).map
          Record.spend).filterMap id).sum ∧
    meanSpec ((partOf rowsTwoSameTier (fun r => r.tier4) groupTwoSameTier.key).map Record.aov)
      groupTwoSameTier.aov := by
  have hmem : groupTwoSameTier ∈ aggBase rowsTwoSameTier (fun r => r.tier4) := by
    norm_num [aggBase, keysOf, sortKeys, insertKey, aggRow, partOf, psum, pmean,
      rowsTwoSameTier, groupTwoSameTier, List.filterMap_cons,
      List.dedup_cons_of_mem, List.dedup_cons_of_not_mem, List.dedup_nil]
  have h := claim4_aggregation_characterised rowsTwoSameTier (fun r => r.tier4)
    groupTwoSameTier hmem
  exact ⟨hmem, h.1, h.2.2.2.1⟩

/-- Claim C5: for every record set and every grouping key, the per-group
summed spends add up to the whole dataset's (skipna) total spend — the
groupby of lines 32–38 / 95–101 partitions the records, losing and
double-counting nothing. -/
theorem claim5_spend_partition {K : Type} [LinearOrder K]
    (rows : List Record) (sel : Record → K) :
    ((aggBase rows sel).map (fun g => g.spend)).sum = psum (rows.map Record.spend) := by
  unfold aggBase
  rw [List.map_map]
  have hfun : ((fun g : GroupBase K => g.spend) ∘ aggRow rows sel)
      = fun k => psum ((partOf rows sel k).map Record.spend) := rfl
  rw [hfun]
  rw [psum_parts Record.spend rows sel (keysOf rows sel) (keysOf_nodup rows sel)]
  have hfil : rows.filter (fun r => sel r ∈ keysOf rows sel) = rows := by
    apply List.filter_eq_self.2
    intro r hr
    simp [mem_keysOf rows sel r hr]
  rw [hfil]

/-- Claim C6: over any aggregated frame whose derived `CPA` cells are finite
or missing (no zero-conversion group, so no infinities), the line-75
correlation matrix is symmetric in its two metric arguments, and the
diagonal entry at any metric with at least 2 defined observations and
nonzero variance equals exactly 1. -/
theorem claim6_corr_symmetric_diag_one {K : Type} (gs : List (Group K))
    (hfin : ∀ g ∈ gs, g.cpa ≠ FVal.inf ∧ g.cpa ≠ FVal.neginf) :
    (∀ m1 m2 : Metric, corrMatrix gs m1 m2 = corrMatrix gs m2 m1) ∧
    (∀ m : Metric,
      2 ≤ ((gs.map (fun g => metricCol g m)).filterMap id).length →
      varSum ((gs.map (fun g => metricCol g m)).filterMap id) ≠ 0 →
      corrMatrix gs m m = some 1) := by
  constructor
  · intro m1 m2
    unfold corrMatrix
    exact pearson_symm _ _
  · intro m _ hvar
    unfold corrMatrix
    exact pearson_self _ hvar

/-- Witness for `claim6_corr_symmetric_diag_one` on the two-group frame
`[gLow, gHigh]`: the spend column `[5, 3]` has 2 defined observations and
deviation-square sum 2, and its diagonal correlation is exactly 1. -/
theorem claim6_corr_symmetric_diag_one_witness :
    (∀ g ∈ [gLow, gHigh], g.cpa ≠ FVal.inf ∧ g.cpa ≠ FVal.neginf) ∧
    2 ≤ (([gLow, gHigh].map (fun g => metricCol g Metric.spend)).filterMap id).length ∧
    varSum (([gLow, gHigh].map (fun g => metricCol g Metric.spend)).filterMap id) ≠ 0 ∧
    corrMatrix [gLow, gHigh] Metric.spend Metric.spend = some 1 := by
  have hfin : ∀ g ∈ [gLow, gHigh], g.cpa ≠ FVal.inf ∧ g.cpa ≠ FVal.neginf := by decide
  have hlen : 2 ≤ (([gLow, gHigh].map (fun g => metricCol g Metric.spend)).filterMap id).length := by
    norm_num [gLow, gHigh, metricCol, List.filterMap_cons]
  have hvar : varSum (([gLow, gHigh].map (fun g => metricCol g Metric.spend)).filterMap id) ≠ 0 := by
    norm_num [varSum, qmean, gLow, gHigh, metricCol, List.filterMap_cons]
  exact ⟨hfin, hlen, hvar,
    (claim6_corr_symmetric_diag_one [gLow, gHigh] hfin).2 Metric.spend hlen hvar⟩

/-- Claim C7: on every nonempty weekly aggregated series, the line-200/201
labels satisfy: "increasing" iff the last week's summed spend strictly
exceeds the first week's, otherwise "decreasing"; "improving" iff the last
week's mean `ROAS` strictly exceeds the first week's (a NaN on either side
compares false), otherwise "declining".  Equal first and last values land in
the `else` labels, and the classification is total — it never raises. -/
theorem claim7_trend_labels (tw : List (GroupBase ℕ)) (hne : tw ≠ []) :
    ∃ f l : GroupBase ℕ, tw.head? = some f ∧ tw.getLast? = some l ∧
      (spendTrendLabel (tw.map (fun g => g.spend)) = some "increasing" ↔ f.spend < l.spend) ∧
      (spendTrendLabel (tw.map (fun g => g.spend)) = some "decreasing" ↔ ¬ f.spend < l.spend) ∧
      (roasTrendLabel (tw.map (fun g => g.roas)) = some "improving" ↔ fgt l.roas f.roas = true) ∧
      (roasTrendLabel (tw.map (fun g => g.roas)) = some "declining" ↔ fgt l.roas f.roas = false) := by
  rcases tw with _ | ⟨f0, rest⟩
  · exact absurd rfl hne
  obtain ⟨l, hl⟩ : ∃ l, (f0 :: rest).getLast? = some l := by
    cases hgl : (f0 :: rest).getLast? with
    | none => exact absurd (List.getLast?_eq_none_iff.1 hgl) (List.cons_ne_nil f0 rest)
    | some l => exact ⟨l, rfl⟩
  have hsp : spendTrendLabel ((f0 :: rest).map (fun g => g.spend))
      = some (if f0.spend < l.spend then "increasing" else "decreasing") := by
    unfold spendTrendLabel
    rw [List.head?_map, List.getLast?_map, hl]
    rfl
  have hro : roasTrendLabel ((f0 :: rest).map (fun g => g.roas))
      = some (if fgt l.roas f0.roas then "improving" else "declining") := by
    unfold roasTrendLabel
    rw [List.head?_map, List.getLast?_map, hl]
    rfl
  refine ⟨f0, l, rfl, hl, ?_, ?_, ?_, ?_⟩
  · rw [hsp]
    by_cases hc : f0.spend < l.spend <;> simp [hc]
  · rw [hsp]
    by_cases hc : f0.spend < l.spend <;> simp [hc]
  · rw [hro]
    cases hb : fgt l.roas f0.roas <;> simp [hb]
  · rw [hro]
    cases hb : fgt l.roas f0.roas <;> simp [hb]

/-- Witness for `claim7_trend_labels` on the constant four-week series
`constWeeks` (the spec's `roas = [1.0, 1.0, 1.0, 1.0]` example, constant
spend too): both labels land on the `else` branch — "decreasing" and
"declining" — without raising. -/
theorem claim7_trend_labels_witness :
    constWeeks ≠ [] ∧
    spendTrendLabel (constWeeks.map (fun g => g.spend)) = some "decreasing" ∧
    roasTrendLabel (constWeeks.map (fun g => g.roas)) = some "declining" := by
  obtain ⟨f, l, hf, hl, _, hdec, _, hdecl⟩ := claim7_trend_labels constWeeks (by simp [constWeeks])
  have h0 : constWeeks.head? = some ({ key := 0, spend := 1, conv := 1, cpo := some 1, aov := some 1, roas := some 1 } : GroupBase ℕ) := rfl
  have h3 : constWeeks.getLast? = some ({ key := 3, spend := 1, conv := 1, cpo := some 1, aov := some 1, roas := some 1 } : GroupBase ℕ) := rfl
  rw [h0] at hf
  rw [h3] at hl
  have hfe := Option.some.inj hf
  have hle := Option.some.inj hl
  refine ⟨by simp [constWeeks], ?_, ?_⟩
  · apply hdec.2
    rw [← hfe, ← hle]
    exact lt_irrefl 1
  · apply hdecl.2
    rw [← hfe, ← hle]
    rfl

/-- Claim C8: for every successful (nonempty) forecast and defined last
historical value, the line-219 label is "rising" iff the last forecast
point strictly exceeds the last historical weekly `ROAS`, and otherwise —
including exact equality — "falling". -/
theorem claim8_forecast_trend_label (fc : List ℚ) (hne : fc ≠ []) (h : ℚ) :
    ∃ l : ℚ, fc.getLast? = some l ∧
      (forecastTrendLabel fc (some h) = some "rising" ↔ h < l) ∧
      (forecastTrendLabel fc (some h) = some "falling" ↔ ¬ h < l) ∧
      (l = h → forecastTrendLabel fc (some h) = some "falling") := by
  obtain ⟨l, hl⟩ : ∃ l, fc.getLast? = some l := by
    cases hgl : fc.getLast? with
    | none => exact absurd (List.getLast?_eq_none_iff.1 hgl) hne
    | some l => exact ⟨l, rfl⟩
  have hlab : forecastTrendLabel fc (some h) = some (if h < l then "rising" else "falling") := by
    unfold forecastTrendLabel
    rw [hl]
    simp only [fgt]
    by_cases hc : h < l
    · simp [hc]
    · simp [hc]
  refine ⟨l, hl, ?_, ?_, ?_⟩
  · rw [hlab]
    by_cases hc : h < l <;> simp [hc]
  · rw [hlab]
    by_cases hc : h < l <;> simp [hc]
  · intro hlh
    rw [hlab, if_neg]
    rw [hlh]
    exact lt_irrefl h

/-- Witness for `claim8_forecast_trend_label` on the constant forecast
`[1, 1, 1, 1]` with last historical value 1: equal values label "falling". -/
theorem claim8_forecast_trend_label_witness :
    ([1, 1, 1, 1] : List ℚ) ≠ [] ∧
    forecastTrendLabel [1, 1, 1, 1] (some 1) = some "falling" := by
  obtain ⟨l, hl, _, _, heq⟩ := claim8_forecast_trend_label [1, 1, 1, 1] (by simp) 1
  have h1 : ([1, 1, 1, 1] : List ℚ).getLast? = some 1 := rfl
  rw [h1] at hl
  exact ⟨by simp, heq (Option.some.inj hl).symm⟩

end FbAdds
